import Mathlib

/-!
Shallow embedding of binaryen's `LogExecution` instrumentation pass
(`src/passes/LogExecution.cpp`) and proofs about it.

The pass walks a module post-order, splicing a call to an imported logger
in front of every function body, before every `return`, before the last
statement of a block body, and at the head of every loop body.  Each call
carries a 32-bit identifier packing a 30-bit sequence number and a 2-bit
event kind (`union LogID`).
-/

namespace LogExec

/-- The local name of the logging import: `Name LOGGER("log_execution")`. -/
def LOGGER : String := "log_execution"

/-- The conventional default environment module name (`ENV` from
shared-constants, the string "env"). -/
def ENV : String := "env"

/-- Trace event kinds, from `enum class LogKind` (FunctionEntry = 0,
Return = 1, LoopHeader = 2). -/
inductive LogKind where
  | FunctionEntry
  | Return
  | LoopHeader
deriving Repr, DecidableEq

/-- The numeric value of a `LogKind`, its position in the C++ enum. -/
def kindCode : LogKind → Nat
  | .FunctionEntry => 0
  | .Return => 1
  | .LoopHeader => 2

/-- 2^30, the size of the 30-bit `id` bitfield of `union LogID`. -/
def U30 : Nat := 2 ^ 30

/-- 2^32, the size of the whole 32-bit identifier (`uint32_t`). -/
def U32 : Nat := 2 ^ 32

/-- The 32-bit pattern of `LogID.raw` after `id.id = seq; id.kind = kind`:
assigning to the unsigned 30-bit bitfield `uint32_t id : 30` stores `seq`
modulo 2^30 in the low 30 bits; the 2-bit `kind` field occupies bits 30-31. -/
def encodeLogID (seq : Nat) (kind : LogKind) : Nat :=
  seq % U30 + kindCode kind * U30

/-- Reading the `id` bitfield (the low 30 bits) of a 32-bit identifier. -/
def decodeSeq (raw : Nat) : Nat := raw % U30

/-- Reading the `kind` bitfield (the high 2 bits) of a 32-bit identifier. -/
def decodeKindBits (raw : Nat) : Nat := raw / U30 % 4

/-- Expressions of the IR, restricted to the shapes the pass distinguishes:
blocks (`Block`, also what `Builder::makeSequence` produces), loops,
returns (with an optional value child), calls, 32-bit constants, and a
catch-all for every other node with its children. -/
inductive Expr where
  | block : List Expr → Expr
  | loop : Expr → Expr
  | ret : Option Expr → Expr
  | call : String → List Expr → Expr
  | const : Nat → Expr
  | other : List Expr → Expr
deriving Repr

/-- Mutable pass-instance state: the `nextID` counter (a `uint32_t`) and the
accumulated `functionNameIdPairs`.  `mintTrace` is a ghost history recording
every `(id.id, kind)` minted by `makeLogCall`, in order, so that ordering
properties can be stated; it influences nothing. -/
structure PassState where
  nextID : Nat
  functionNameIdPairs : List (String × Nat)
  mintTrace : List (Nat × LogKind)
deriving Repr

/-- `LogExecution::makeLogCall`: mint the next identifier
(`id.id = nextID++; id.kind = kind`, the counter wrapping as a `uint32_t`),
report the stored 30-bit sequence (`*outLogId = id.id`) as the middle
component, and return `sequence(call(LOGGER, const(id.raw)), curr)` —
`Builder::makeSequence` builds a two-element block. -/
def makeLogCall (st : PassState) (curr : Expr) (kind : LogKind) :
    Expr × Nat × PassState :=
  let seq := st.nextID % U30
  let raw := encodeLogID st.nextID kind
  (.block [.call LOGGER [.const raw], curr], seq,
   { st with nextID := (st.nextID + 1) % U32,
             mintTrace := st.mintTrace ++ [(seq, kind)] })

mutual
/-- Post-order walk of one expression, threading the pass state: children
are walked first, then `visitLoop` replaces a loop's body with
`makeLogCall(body, LoopHeader)` and `visitReturn` replaces a return node
with `makeLogCall(return, Return)`.  No other node kind has a visitor. -/
def walkExpr (st : PassState) : Expr → Expr × PassState
  | .block es =>
      let p := walkList st es
      (.block p.1, p.2)
  | .loop b =>
      let p := walkExpr st b
      let q := makeLogCall p.2 p.1 .LoopHeader
      (.loop q.1, q.2.2)
  | .ret none =>
      let q := makeLogCall st (.ret none) .Return
      (q.1, q.2.2)
  | .ret (some v) =>
      let p := walkExpr st v
      let q := makeLogCall p.2 (.ret (some p.1)) .Return
      (q.1, q.2.2)
  | .call n args =>
      let p := walkList st args
      (.call n p.1, p.2)
  | .const c => (.const c, st)
  | .other es =>
      let p := walkList st es
      (.other p.1, p.2)

/-- Walk a list of children left to right, threading the state. -/
def walkList (st : PassState) : List Expr → List Expr × PassState
  | [] => ([], st)
  | e :: es =>
      let p := walkExpr st e
      let q := walkList p.2 es
      (p.1 :: q.1, q.2)
end

/-- Value types, as far as the logger import's signature needs them. -/
inductive ValType where
  | i32
  | i64
  | f32
  | f64
deriving Repr, DecidableEq

/-- A function of the module: name, import module and base name (both empty
for defined functions), signature, and body. -/
structure Function where
  name : String
  module : String
  base : String
  params : List ValType
  results : List ValType
  body : Expr
deriving Repr

/-- `Importable::imported()`: a function is imported when its module name
is set (non-empty). -/
def Function.imported (f : Function) : Bool := f.module ≠ ""

/-- `LogExecution::visitFunction`: nothing for imports; otherwise, if the
(already walked) body is a block with a non-empty list, replace the list's
last element with `makeLogCall(last, Return)`; then unconditionally replace
the body with `makeLogCall(body, FunctionEntry)` and append
`(name, functionId)` to `functionNameIdPairs`. -/
def visitFunction (st : PassState) (f : Function) : Function × PassState :=
  if f.imported then (f, st)
  else
    let p : Expr × PassState :=
      match f.body with
      | .block [] => (.block [], st)
      | .block (e :: es) =>
          let q := makeLogCall st ((e :: es).getLast (List.cons_ne_nil e es)) .Return
          (.block ((e :: es).dropLast ++ [q.1]), q.2.2)
      | b => (b, st)
    let q := makeLogCall p.2 p.1 .FunctionEntry
    ({ f with body := q.1 },
     { q.2.2 with functionNameIdPairs :=
         q.2.2.functionNameIdPairs ++ [(f.name, q.2.1)] })

/-- The per-run filter configuration: the two parsed name sets and the
`log-execution-nostd` flag. -/
structure FilterState where
  ignoreListNames : List String
  includeListNames : List String
  noStd : Bool
deriving Repr

/-- Character-by-character prefix test on lists. -/
def startsWithList : List Char → List Char → Bool
  | _, [] => true
  | [], _ :: _ => false
  | c :: cs, d :: ds => c == d && startsWithList cs ds

/-- `IString::startsWith`: does the name begin with the given literal
prefix (a plain byte-prefix comparison)? -/
def strStartsWith (s p : String) : Bool := startsWithList s.data p.data

/-- The ignore decision at the top of `LogExecution::walkFunction`: with a
non-empty include list, ignore exactly the names not on it (the ignore list
and the nostd flag are never read); otherwise ignore the names on the
ignore list and, when the nostd flag is set, the names starting with
"std::". -/
def funcIgnored (fs : FilterState) (name : String) : Bool :=
  if fs.includeListNames.length > 0 then
    ! fs.includeListNames.contains name
  else
    fs.ignoreListNames.contains name || (fs.noStd && strStartsWith name "std::")

/-- The framework's function walk: the body (absent for imports) is walked
post-order, then `visitFunction` runs on the function itself. -/
def doWalkFunction (st : PassState) (f : Function) : Function × PassState :=
  if f.imported then visitFunction st f
  else
    let p := walkExpr st f.body
    visitFunction p.2 { f with body := p.1 }

/-- `LogExecution::walkFunction`: skip the whole function when the filter
ignores it, otherwise run the framework walk. -/
def walkFunction (fs : FilterState) (st : PassState) (f : Function) :
    Function × PassState :=
  if funcIgnored fs f.name then (f, st) else doWalkFunction st f

/-- Walk the module's functions in list order, threading the state. -/
def walkFunctions (fs : FilterState) (st : PassState) :
    List Function → List Function × PassState
  | [] => ([], st)
  | f :: rest =>
      let p := walkFunction fs st f
      let q := walkFunctions fs p.2 rest
      (p.1 :: q.1, q.2)

/-- A module: its ordered function list (the only part the pass reads). -/
structure Module where
  functions : List Function
deriving Repr

/-- Module-name resolution for the logger import, from
`LogExecution::visitModule`: the explicit override if non-empty; else the
module of the first imported function whose module is ENV; else the module
of the first imported function of any module; else ENV.  An empty string
plays the role of an unset `IString` at every step. -/
def resolveLoggerModule (loggerModule : String) (funcs : List Function) :
    String :=
  if loggerModule ≠ "" then loggerModule
  else
    let m1 := match funcs.find? (fun f => f.imported && f.module == ENV) with
      | some f => f.module
      | none => ""
    let m2 :=
      if m1 = "" then
        match funcs.find? (fun f => f.imported) with
        | some f => f.module
        | none => ""
      else m1
    if m2 = "" then ENV else m2

/-- The import built by `LogExecution::visitModule`:
`Builder::makeFunction(LOGGER, Signature(Type::i32, Type::none), {})` with
`base = LOGGER` and the resolved module — one i32 parameter, no results,
no body of its own. -/
def loggerImport (mod : String) : Function :=
  { name := LOGGER, module := mod, base := LOGGER,
    params := [.i32], results := [], body := .other [] }

/-- `LogExecution::visitModule`, run once by the walker after all functions:
append the logger import to the module's function list. -/
def visitModule (loggerModule : String) (m : Module) : Module :=
  { functions :=
      m.functions ++ [loggerImport (resolveLoggerModule loggerModule m.functions)] }

/-- C `isxdigit` in the default locale. -/
def isHexDigit (c : Char) : Bool :=
  ('0' ≤ c && c ≤ '9') || ('a' ≤ c && c ≤ 'f') || ('A' ≤ c && c ≤ 'F')

/-- The numeric value of one hex digit, as `std::from_chars` base 16 reads it. -/
def hexVal (c : Char) : Nat :=
  if '0' ≤ c && c ≤ '9' then c.toNat - '0'.toNat
  else if 'a' ≤ c && c ≤ 'f' then c.toNat - 'a'.toNat + 10
  else if 'A' ≤ c && c ≤ 'F' then c.toNat - 'A'.toNat + 10
  else 0

/-- The scan of `LogExecution::unescape` on the character list: a backslash
followed by two hex digits (all three present, `i + 2 < length`) becomes the
byte `from_chars` base 16 parses; any other character — a lone backslash
included — is copied through, and the scan resumes right after it. -/
def unescapeList : List Char → List Char
  | '\\' :: c1 :: c2 :: rest =>
      if isHexDigit c1 && isHexDigit c2 then
        Char.ofNat (16 * hexVal c1 + hexVal c2) :: unescapeList rest
      else
        '\\' :: unescapeList (c1 :: c2 :: rest)
  | c :: rest => c :: unescapeList rest
  | [] => []

/-- `LogExecution::unescape` on strings. -/
def unescape (s : String) : String := ⟨unescapeList s.data⟩

/-- The per-run configuration the driver reads through
`getArgumentOrDefault` (the two lists already split and normalized, which
is upstream work of `String::Split` and `WasmBinaryReader::escape`). -/
structure Config where
  loggerModule : String
  ignoreListNames : List String
  includeListNames : List String
  noStd : Bool
  exportMap : String
deriving Repr

/-- The state `LogExecution::run` resets before walking: `nextID = 0`,
`functionNameIdPairs.clear()`. -/
def initState : PassState := { nextID := 0, functionNameIdPairs := [], mintTrace := [] }

/-- The export-map serialization: one `id:unescaped-name` line per recorded
pair, in recorded order (`exportMapFile << id << ":" << unescape(name.str)`). -/
def exportMapLines (pairs : List (String × Nat)) : List String :=
  pairs.map (fun p => toString p.2 ++ ":" ++ unescape p.1)

/-- `LogExecution::run`: reset the state, walk the functions in order, run
`visitModule`, and then — only when the export-map argument is non-empty —
produce the export-map lines (`none` means nothing is written, not an
error). -/
def runPass (cfg : Config) (m : Module) :
    Module × PassState × Option (List String) :=
  let fs : FilterState :=
    { ignoreListNames := cfg.ignoreListNames,
      includeListNames := cfg.includeListNames, noStd := cfg.noStd }
  let p := walkFunctions fs initState m.functions
  let m1 := visitModule cfg.loggerModule { functions := p.1 }
  let out := if cfg.exportMap.length > 0 then some (exportMapLines p.2.functionNameIdPairs)
    else none
  (m1, p.2, out)

/-- The shape of an inserted trace call of a given kind:
`call(LOGGER, const(raw))` whose identifier's kind bits decode to that
kind's code. -/
def isLogCall (k : LogKind) : Expr → Bool
  | .call n args =>
      match args with
      | [.const raw] => n == LOGGER && decodeKindBits raw == kindCode k
      | _ => false
  | _ => false

/-- Bare return detector. -/
def isRetNode : Expr → Bool
  | .ret _ => true
  | _ => false

mutual
/-- Holds when every return in the tree occurs as the second element of a
two-element block headed by a Return-kind trace call, and every loop's
body is a two-element block headed by a LoopHeader-kind trace call. -/
def instrumentedOK : Expr → Bool
  | .block es => blockOK es
  | .loop b => loopBodyOK b
  | .ret _ => false
  | .call _ args => instrumentedOKList args
  | .const _ => true
  | .other es => instrumentedOKList es

/-- A block's list is fine when it is a traced-return pair, or when every
element is fine and no element is a bare return. -/
def blockOK : List Expr → Bool
  | [c, .ret v] => isLogCall .Return c && instrumentedOKOpt v
  | es => instrumentedOKList es

/-- A loop body must be a two-element block headed by a LoopHeader call. -/
def loopBodyOK : Expr → Bool
  | .block [c, b] => isLogCall .LoopHeader c && instrumentedOK b
  | _ => false

def instrumentedOKList : List Expr → Bool
  | [] => true
  | e :: es => instrumentedOK e && instrumentedOKList es

def instrumentedOKOpt : Option Expr → Bool
  | none => true
  | some v => instrumentedOK v
end

mutual
/-- How many subterms of the tree are trace calls of the given kind. -/
def countLog (k : LogKind) : Expr → Nat
  | .block es => countLogList k es
  | .loop b => countLog k b
  | .ret none => 0
  | .ret (some v) => countLog k v
  | .call n args =>
      (if isLogCall k (.call n args) then 1 else 0) + countLogList k args
  | .const _ => 0
  | .other es => countLogList k es

def countLogList (k : LogKind) : List Expr → Nat
  | [] => 0
  | e :: es => countLog k e + countLogList k es
end

/-- Two pass states separated by a run of mints: the ghost trace grew by
`ms`, the counter advanced by `ms.length` as a `uint32_t`, and the i-th
new mint stored the 30-bit truncation of `nextID + i`. -/
def MintsFrom (st st2 : PassState) (ms : List (Nat × LogKind)) : Prop :=
  st2.mintTrace = st.mintTrace ++ ms ∧
  (st.nextID < U32 →
    st2.nextID = (st.nextID + ms.length) % U32 ∧
    ∀ i (h : i < ms.length), (ms.get ⟨i, h⟩).1 = (st.nextID + i) % U30)

/-- Example: a defined function whose body is a lone constant. -/
def exFnA : Function :=
  { name := "a", module := "", base := "", params := [], results := [],
    body := .const 0 }

/-- Example: a defined function with two loops and an explicit return, so
that its FunctionEntry identifier comes out as 5 when it follows `exFnA`. -/
def exFnB : Function :=
  { name := "b", module := "", base := "", params := [], results := [],
    body := .block [.loop (.const 1), .loop (.const 1), .ret none] }

/-- Example configuration: no lists, no nostd, an export-map sink set. -/
def exCfg : Config :=
  { loggerModule := "", ignoreListNames := [], includeListNames := [],
    noStd := false, exportMap := "m.map" }

/-- Example: an import of `puts` from `wasi_snapshot_preview1`. -/
def exPuts : Function :=
  { name := "puts", module := "wasi_snapshot_preview1", base := "puts",
    params := [.i32], results := [.i32], body := .other [] }

/-- Example configuration with no export-map sink at all. -/
def exCfgNoSink : Config :=
  { loggerModule := "", ignoreListNames := [], includeListNames := [],
    noStd := false, exportMap := "" }

/-- No position of the character list starts a backslash-hex-hex escape
triplet. -/
def tripletFree : List Char → Bool
  | '\\' :: c1 :: c2 :: rest =>
      !(isHexDigit c1 && isHexDigit c2) && tripletFree (c1 :: c2 :: rest)
  | _ :: rest => tripletFree rest
  | [] => true

mutual
/-- The tree contains no call to the logger's name at all (the normal
state of an input program, whose logger import is added only by this
pass). -/
def noLoggerCalls : Expr → Bool
  | .block es => noLoggerCallsList es
  | .loop b => noLoggerCalls b
  | .ret none => true
  | .ret (some v) => noLoggerCalls v
  | .call n args => (n != LOGGER) && noLoggerCallsList args
  | .const _ => true
  | .other es => noLoggerCallsList es

def noLoggerCallsList : List Expr → Bool
  | [] => true
  | e :: es => noLoggerCalls e && noLoggerCallsList es
end

theorem kindCode_lt (k : LogKind) : kindCode k < 4 := by
  cases k <;> simp [kindCode]

theorem decode_encode_kind (s : Nat) (k : LogKind) :
    decodeKindBits (encodeLogID s k) = kindCode k := by
  cases k <;> simp [encodeLogID, decodeKindBits, kindCode, U30] <;> omega

theorem encodeLogID_mod (s : Nat) (k : LogKind) :
    encodeLogID s k = encodeLogID (s % U30) k := by
  cases k <;> simp [encodeLogID, kindCode, U30] <;> omega

theorem unescape_copy_step (c : Char) (rest : List Char)
    (h : c = '\\' → ∀ c1 c2 rest2, rest = c1 :: c2 :: rest2 →
      (isHexDigit c1 && isHexDigit c2) = false) :
    unescapeList (c :: rest) = c :: unescapeList rest := by
  by_cases hc : c = '\\'
  · subst hc
    match rest with
    | [] => simp [unescapeList]
    | [c1] => simp [unescapeList]
    | c1 :: c2 :: r =>
        have hx := h rfl c1 c2 r rfl
        simp [unescapeList, hx]
  · match rest with
    | [] => simp [unescapeList, hc]
    | [c1] => simp [unescapeList, hc]
    | c1 :: c2 :: r => simp [unescapeList, hc]

theorem tripletFree_tail (c : Char) (rest : List Char)
    (h : tripletFree (c :: rest) = true) : tripletFree rest = true := by
  by_cases hc : c = '\\'
  · subst hc
    match rest with
    | [] => simp [tripletFree]
    | [c1] => simp [tripletFree]
    | c1 :: c2 :: r =>
        simp only [tripletFree, Bool.and_eq_true] at h
        exact h.2
  · match rest with
    | [] => simp [tripletFree]
    | [c1] => simp [tripletFree]
    | c1 :: c2 :: r =>
        simp [tripletFree, hc] at h
        exact h

theorem tripletFree_unescape_id (l : List Char) (h : tripletFree l = true) :
    unescapeList l = l := by
  induction l using tripletFree.induct with
  | case1 c1 c2 rest ih =>
      simp only [tripletFree, Bool.and_eq_true, Bool.not_eq_true'] at h
      simp [unescapeList, h.1, ih h.2]
  | case2 c rest h2 ih =>
      have hstep : unescapeList (c :: rest) = c :: unescapeList rest :=
        unescape_copy_step c rest
          (fun hc c1 c2 r2 hr => absurd (h2 c1 c2 r2 hc hr) not_false)
      rw [hstep, ih (tripletFree_tail c rest h)]
  | case3 => simp [unescapeList]

/-- C4: for every sequence number s below 2^30 and every kind, the encoded
32-bit identifier packs s into the low 30 bits and the kind code into the
high 2 bits, and decoding (the low 30 bits, the high 2 bits) recovers
exactly s and the kind. -/
theorem logID_roundtrip (s : Nat) (k : LogKind) (hs : s < U30) :
    encodeLogID s k = s + kindCode k * U30 ∧
    encodeLogID s k < U32 ∧
    decodeSeq (encodeLogID s k) = s ∧
    decodeKindBits (encodeLogID s k) = kindCode k := by
  cases k <;>
    simp [encodeLogID, decodeSeq, decodeKindBits, kindCode, U30, U32] at * <;>
    omega

/-- Witness for logID_roundtrip, at sequence 5 and kind Return. -/
theorem logID_roundtrip_witness :
    decodeSeq (encodeLogID 5 .Return) = 5 ∧
    decodeKindBits (encodeLogID 5 .Return) = kindCode .Return :=
  ⟨(logID_roundtrip 5 .Return (by decide)).2.2.1,
   (logID_roundtrip 5 .Return (by decide)).2.2.2⟩

/-- C5 counterexample: at sequence 2^30 (the first value at or beyond the
30-bit range) with kind FunctionEntry, the encoded identifier still decodes
to exactly the kind it was encoded with, so the kind bits are not
corrupted as the claim states. -/
theorem logID_overflow_kind_survives :
    2 ^ 30 ≤ (2 ^ 30 : Nat) ∧
    decodeKindBits (encodeLogID (2 ^ 30) .FunctionEntry) =
      kindCode .FunctionEntry :=
  ⟨le_refl _, by decide⟩

/-- C5 (amended): encoding a sequence number s ≥ 2^30 raises no error and
is not detected (encoding is total); what is silently corrupted is the
sequence: the 30-bit bitfield keeps only s mod 2^30, so decoding does not
recover s — while the kind bits are intact and decode to exactly the kind
that was encoded. -/
theorem logID_overflow_truncates_seq (s : Nat) (k : LogKind)
    (hs : U30 ≤ s) :
    decodeSeq (encodeLogID s k) = s % U30 ∧
    decodeSeq (encodeLogID s k) ≠ s ∧
    decodeKindBits (encodeLogID s k) = kindCode k := by
  refine ⟨?_, ?_, decode_encode_kind s k⟩ <;>
    cases k <;>
    simp [encodeLogID, decodeSeq, kindCode, U30] at * <;>
    omega

/-- Witness for logID_overflow_truncates_seq at sequence 2^30 + 3 and kind
LoopHeader. -/
theorem logID_overflow_truncates_seq_witness :
    decodeSeq (encodeLogID (2 ^ 30 + 3) .LoopHeader) = (2 ^ 30 + 3) % U30 ∧
    decodeSeq (encodeLogID (2 ^ 30 + 3) .LoopHeader) ≠ 2 ^ 30 + 3 ∧
    decodeKindBits (encodeLogID (2 ^ 30 + 3) .LoopHeader) =
      kindCode .LoopHeader :=
  logID_overflow_truncates_seq (2 ^ 30 + 3) .LoopHeader (by decide)

/-- C3: the filter's priority.  With a non-empty include list a function
is instrumented iff its name is on that list and neither the ignore list
nor the nostd flag is consulted; with an empty include list it is
instrumented unless its name is on the ignore list or the nostd flag is set
and the name starts with "std::".  On {foo,bar,baz} with include {foo} and
ignore {bar} only foo survives; on {bar, std::vector<int>::push_back, main}
with ignore {bar} and nostd only main survives. -/
theorem filter_policy :
    (∀ (inc ig ig2 : List String) (ns ns2 : Bool) (name : String),
        0 < inc.length →
        funcIgnored ⟨ig, inc, ns⟩ name = funcIgnored ⟨ig2, inc, ns2⟩ name) ∧
    (∀ (inc ig : List String) (ns : Bool) (name : String),
        0 < inc.length →
        (funcIgnored ⟨ig, inc, ns⟩ name = false ↔ inc.contains name = true)) ∧
    (∀ (ig : List String) (ns : Bool) (name : String),
        funcIgnored ⟨ig, [], ns⟩ name = false ↔
          (ig.contains name = false ∧
            (ns = true → strStartsWith name "std::" = false))) ∧
    (["foo", "bar", "baz"].filter
        (fun n => ! funcIgnored ⟨["bar"], ["foo"], false⟩ n) = ["foo"]) ∧
    (["bar", "std::vector<int>::push_back", "main"].filter
        (fun n => ! funcIgnored ⟨["bar"], [], true⟩ n) = ["main"]) := by
  refine ⟨?_, ?_, ?_, by decide, by decide⟩
  · intro inc ig ig2 ns ns2 name h
    simp [funcIgnored, h]
  · intro inc ig ns name h
    simp [funcIgnored, h]
  · intro ig ns name
    simp [funcIgnored]

/-- Witness for filter_policy: the include-list mode at the concrete
inputs of the claim. -/
theorem filter_policy_witness :
    funcIgnored ⟨["bar"], ["foo"], true⟩ "bar" =
      funcIgnored ⟨[], ["foo"], false⟩ "bar" ∧
    (funcIgnored ⟨["bar"], ["foo"], false⟩ "foo" = false ↔
      (["foo"].contains "foo") = true) :=
  ⟨filter_policy.1 ["foo"] ["bar"] [] true false "bar" (by decide),
   filter_policy.2.1 ["foo"] ["bar"] false "foo" (by decide)⟩

/-- C9: unescape replaces each backslash-hex-hex triplet by the byte the
two digits encode, copies any other character through unchanged (a lone
backslash included), is the identity on triplet-free input, and maps
"a\62c" to "abc". -/
theorem unescape_behavior :
    (∀ (c1 c2 : Char) (rest : List Char),
        isHexDigit c1 = true → isHexDigit c2 = true →
        unescapeList ('\\' :: c1 :: c2 :: rest) =
          Char.ofNat (16 * hexVal c1 + hexVal c2) :: unescapeList rest) ∧
    (∀ (c : Char) (rest : List Char),
        (c = '\\' → ∀ c1 c2 rest2, rest = c1 :: c2 :: rest2 →
          (isHexDigit c1 && isHexDigit c2) = false) →
        unescapeList (c :: rest) = c :: unescapeList rest) ∧
    (∀ s : String, tripletFree s.data = true → unescape s = s) ∧
    unescape "a\\62c" = "abc" := by
  refine ⟨?_, unescape_copy_step, ?_, by decide⟩
  · intro c1 c2 rest h1 h2
    simp [unescapeList, h1, h2]
  · intro s h
    cases s with
    | mk data => simp [unescape, tripletFree_unescape_id data h]

/-- Witness for unescape_behavior: one decoded triplet, one copied
character, one triplet-free identity. -/
theorem unescape_behavior_witness :
    unescapeList ['\\', '6', '2'] =
      Char.ofNat (16 * hexVal '6' + hexVal '2') :: unescapeList [] ∧
    unescapeList ['x', '\\', 'z'] = 'x' :: unescapeList ['\\', 'z'] ∧
    unescape "ma\\in" = "ma\\in" :=
  ⟨unescape_behavior.1 '6' '2' [] (by decide) (by decide),
   unescape_behavior.2.1 'x' ['\\', 'z'] (fun hx => absurd hx (by decide)),
   unescape_behavior.2.2.1 "ma\\in" (by decide)⟩

theorem if_env_ne (m2 : String) : (if m2 = "" then ENV else m2) ≠ "" := by
  split
  · simp [ENV]
  · assumption

/-- C7: one external binding with local name log_execution, one i32
parameter and no results, is appended to the module once, after all
functions were visited; its module is the explicit override when supplied,
else the module of the first import from the default environment name,
else the module of the first import of any module, else the default
environment name — never failing; with only a `puts` import from
wasi_snapshot_preview1 and no override, the binding's module is
wasi_snapshot_preview1. -/
theorem logger_import_resolution :
    (∀ (lm : String) (m : Module),
        (visitModule lm m).functions =
          m.functions ++ [loggerImport (resolveLoggerModule lm m.functions)]) ∧
    (∀ cfg (m : Module),
        (runPass cfg m).1.functions =
          (walkFunctions ⟨cfg.ignoreListNames, cfg.includeListNames, cfg.noStd⟩
              initState m.functions).1 ++
            [loggerImport (resolveLoggerModule cfg.loggerModule
              (walkFunctions ⟨cfg.ignoreListNames, cfg.includeListNames, cfg.noStd⟩
                initState m.functions).1)]) ∧
    (∀ mod, (loggerImport mod).name = LOGGER ∧ (loggerImport mod).base = LOGGER ∧
        (loggerImport mod).params = [.i32] ∧ (loggerImport mod).results = []) ∧
    (∀ (lm : String) (funcs : List Function), lm ≠ "" →
        resolveLoggerModule lm funcs = lm) ∧
    (∀ (funcs : List Function) (g : Function),
        funcs.find? (fun f => f.imported && f.module == ENV) = some g →
        resolveLoggerModule "" funcs = ENV) ∧
    (∀ (funcs : List Function) (g : Function),
        funcs.find? (fun f => f.imported && f.module == ENV) = none →
        funcs.find? Function.imported = some g → g.module ≠ "" →
        resolveLoggerModule "" funcs = g.module) ∧
    (∀ funcs : List Function,
        funcs.find? (fun f => f.imported && f.module == ENV) = none →
        (funcs.find? Function.imported = none ∨
          ∃ g, funcs.find? Function.imported = some g ∧ g.module = "") →
        resolveLoggerModule "" funcs = ENV) ∧
    (∀ (lm : String) (funcs : List Function),
        resolveLoggerModule lm funcs ≠ "" ∧
        (loggerImport (resolveLoggerModule lm funcs)).imported = true) ∧
    resolveLoggerModule "" [exPuts] = "wasi_snapshot_preview1" := by
  refine ⟨fun lm m => rfl, fun cfg m => rfl, fun mod => ⟨rfl, rfl, rfl, rfl⟩,
    ?_, ?_, ?_, ?_, ?_, by decide⟩
  · intro lm funcs h
    simp [resolveLoggerModule, h]
  · intro funcs g hfind
    have hp := List.find?_some hfind
    simp only [Bool.and_eq_true, beq_iff_eq] at hp
    simp only [ENV] at hfind hp
    have henv : ¬("env" : String) = "" := by decide
    simp [resolveLoggerModule, hfind, hp.2, henv, ENV]
  · intro funcs g h1 h2 h3
    simp [resolveLoggerModule, h1, h2, h3]
  · intro funcs h1 h2
    rcases h2 with h2 | ⟨g, h2, h3⟩
    · simp [resolveLoggerModule, h1, h2]
    · simp [resolveLoggerModule, h1, h2, h3]
  · intro lm funcs
    constructor
    · unfold resolveLoggerModule
      split
      · assumption
      · exact if_env_ne _
    · show decide _ = true
      simp [loggerImport, Function.imported]
      unfold resolveLoggerModule
      split
      · assumption
      · exact if_env_ne _

/-- Witness for logger_import_resolution: the override case, the env case,
the first-import case and the fallback case at concrete modules. -/
theorem logger_import_resolution_witness :
    resolveLoggerModule "myenv" [exPuts] = "myenv" ∧
    resolveLoggerModule ""
      [⟨"g", "env", "g", [], [], .other []⟩] = ENV ∧
    resolveLoggerModule "" [exPuts] = exPuts.module ∧
    resolveLoggerModule "" [exFnA] = ENV :=
  ⟨logger_import_resolution.2.2.2.1 "myenv" [exPuts] (by decide),
   logger_import_resolution.2.2.2.2.1 [⟨"g", "env", "g", [], [], .other []⟩]
     ⟨"g", "env", "g", [], [], .other []⟩ rfl,
   logger_import_resolution.2.2.2.2.2.1 [exPuts] exPuts rfl rfl (by decide),
   logger_import_resolution.2.2.2.2.2.2.1 [exFnA] rfl (Or.inl rfl)⟩

/-- C8: with an export-map sink configured, exactly one line per recorded
association is produced, in recorded (function) order, each line
decimal-id, colon, unescaped name; with no sink nothing is produced and
that is not an error; two instrumented functions a (id 0) and b (id 5)
yield exactly the lines 0:a and 5:b in that order. -/
theorem export_map_behavior :
    (∀ cfg (m : Module), cfg.exportMap.length = 0 → (runPass cfg m).2.2 = none) ∧
    (∀ cfg (m : Module), 0 < cfg.exportMap.length →
        (runPass cfg m).2.2 =
          some (exportMapLines (runPass cfg m).2.1.functionNameIdPairs)) ∧
    (∀ pairs, exportMapLines pairs =
        pairs.map (fun p => toString p.2 ++ ":" ++ unescape p.1)) ∧
    (runPass exCfg ⟨[exFnA, exFnB]⟩).2.1.functionNameIdPairs =
      [("a", 0), ("b", 5)] ∧
    (runPass exCfg ⟨[exFnA, exFnB]⟩).2.2 = some ["0:a", "5:b"] ∧
    (runPass exCfgNoSink ⟨[exFnA, exFnB]⟩).2.2 = none := by
  refine ⟨?_, ?_, fun pairs => rfl, by decide, by decide, by decide⟩
  · intro cfg m h
    simp [runPass, h]
  · intro cfg m h
    simp [runPass, h]

/-- Witness for export_map_behavior: the no-sink case and the sink case at
a concrete module. -/
theorem export_map_behavior_witness :
    (runPass exCfgNoSink ⟨[exFnA]⟩).2.2 = none ∧
    (runPass exCfg ⟨[exFnA]⟩).2.2 =
      some (exportMapLines (runPass exCfg ⟨[exFnA]⟩).2.1.functionNameIdPairs) :=
  ⟨export_map_behavior.1 exCfgNoSink ⟨[exFnA]⟩ (by decide),
   export_map_behavior.2.1 exCfg ⟨[exFnA]⟩ (by decide)⟩

theorem walkList_nil (st : PassState) : walkList st [] = ([], st) := by
  simp [walkList]

theorem walkList_cons (st : PassState) (e : Expr) (es : List Expr) :
    walkList st (e :: es) =
      ((walkExpr st e).1 :: (walkList (walkExpr st e).2 es).1,
       (walkList (walkExpr st e).2 es).2) := by
  simp [walkList]

theorem walkExpr_block (st : PassState) (es : List Expr) :
    walkExpr st (.block es) = (.block (walkList st es).1, (walkList st es).2) := by
  simp [walkExpr]

theorem walkExpr_not_ret (st : PassState) (e : Expr) :
    isRetNode (walkExpr st e).1 = false := by
  cases e with
  | block es => simp [walkExpr, isRetNode]
  | loop b => simp [walkExpr, makeLogCall, isRetNode]
  | ret v => cases v <;> simp [walkExpr, makeLogCall, isRetNode]
  | call n args => simp [walkExpr, isRetNode]
  | const c => simp [walkExpr, isRetNode]
  | other es => simp [walkExpr, isRetNode]

theorem walkList_not_ret (es : List Expr) :
    ∀ (st : PassState), ∀ e ∈ (walkList st es).1, isRetNode e = false := by
  induction es with
  | nil => intro st e he; rw [walkList_nil] at he; cases he
  | cons e es ih =>
      intro st x hx
      rw [walkList_cons] at hx
      rcases List.mem_cons.mp hx with hx | hx
      · subst hx; exact walkExpr_not_ret _ _
      · exact ih _ x hx

theorem walkList_length (es : List Expr) :
    ∀ st : PassState, (walkList st es).1.length = es.length := by
  induction es with
  | nil => intro st; rw [walkList_nil]
  | cons e es ih => intro st; rw [walkList_cons]; simp [ih]

theorem walkList_append (xs : List Expr) :
    ∀ (st : PassState) (ys : List Expr),
      walkList st (xs ++ ys) =
        ((walkList st xs).1 ++ (walkList (walkList st xs).2 ys).1,
         (walkList (walkList st xs).2 ys).2) := by
  induction xs with
  | nil => intro st ys; rw [walkList_nil]; simp
  | cons x xs ih =>
      intro st ys
      rw [List.cons_append, walkList_cons, walkList_cons, ih]
      simp

mutual
theorem walkExpr_pairs (st : PassState) (e : Expr) :
    (walkExpr st e).2.functionNameIdPairs = st.functionNameIdPairs := by
  cases e with
  | block es => rw [walkExpr_block]; exact walkList_pairs st es
  | loop b =>
      simp only [walkExpr, makeLogCall]
      exact walkExpr_pairs st b
  | ret v =>
      cases v with
      | none => simp [walkExpr, makeLogCall]
      | some v =>
          simp only [walkExpr, makeLogCall]
          exact walkExpr_pairs st v
  | call n args =>
      simp only [walkExpr]
      exact walkList_pairs st args
  | const c => simp [walkExpr]
  | other es =>
      simp only [walkExpr]
      exact walkList_pairs st es

theorem walkList_pairs (st : PassState) (es : List Expr) :
    (walkList st es).2.functionNameIdPairs = st.functionNameIdPairs := by
  cases es with
  | nil => rw [walkList_nil]
  | cons e es =>
      rw [walkList_cons]
      rw [walkList_pairs (walkExpr st e).2 es, walkExpr_pairs st e]
end

theorem mod_u32_add_mod_u30 (a b : Nat) :
    (a % U32 + b) % U30 = (a + b) % U30 := by
  have hdvd : U30 ∣ U32 := ⟨4, by norm_num [U30, U32]⟩
  conv_lhs => rw [← Nat.mod_add_mod, Nat.mod_mod_of_dvd a hdvd, Nat.mod_add_mod]

theorem mintsFrom_rfl (st : PassState) : MintsFrom st st [] := by
  refine ⟨by simp, fun h => ⟨?_, by simp⟩⟩
  simp [Nat.mod_eq_of_lt h]

theorem mintsFrom_trans {st1 st2 st3 : PassState}
    {ms1 ms2 : List (Nat × LogKind)} (h1 : MintsFrom st1 st2 ms1)
    (h2 : MintsFrom st2 st3 ms2) : MintsFrom st1 st3 (ms1 ++ ms2) := by
  obtain ⟨ht1, hc1⟩ := h1
  obtain ⟨ht2, hc2⟩ := h2
  refine ⟨by rw [ht2, ht1, List.append_assoc], fun hlt => ?_⟩
  obtain ⟨hn1, hs1⟩ := hc1 hlt
  have hlt2 : st2.nextID < U32 := by
    rw [hn1]; exact Nat.mod_lt _ (by norm_num [U32])
  obtain ⟨hn2, hs2⟩ := hc2 hlt2
  constructor
  · rw [hn2, hn1, Nat.mod_add_mod, List.length_append, Nat.add_assoc]
  · intro i h
    by_cases hi : i < ms1.length
    · have hget : (ms1 ++ ms2).get ⟨i, h⟩ = ms1.get ⟨i, hi⟩ := by
        simp only [List.get_eq_getElem]
        exact List.getElem_append_left hi
      rw [hget]
      exact hs1 i hi
    · have hi2 : i - ms1.length < ms2.length := by
        simp only [List.length_append] at h; omega
      have hget : (ms1 ++ ms2).get ⟨i, h⟩ = ms2.get ⟨i - ms1.length, hi2⟩ := by
        simp only [List.get_eq_getElem]
        exact List.getElem_append_right (by omega)
      rw [hget, hs2 (i - ms1.length) hi2, hn1, mod_u32_add_mod_u30]
      congr 1
      omega

theorem makeLogCall_mints (st : PassState) (curr : Expr) (kind : LogKind) :
    MintsFrom st (makeLogCall st curr kind).2.2 [(st.nextID % U30, kind)] := by
  refine ⟨by simp [makeLogCall], fun hlt => ⟨by simp [makeLogCall], ?_⟩⟩
  intro i h
  simp only [List.length_cons, List.length_nil] at h
  have hi : i = 0 := by omega
  subst hi
  simp

mutual
theorem walkExpr_mints (st : PassState) (e : Expr) :
    ∃ ms, MintsFrom st (walkExpr st e).2 ms := by
  cases e with
  | block es =>
      rw [walkExpr_block]
      exact walkList_mints st es
  | loop b =>
      obtain ⟨ms1, h1⟩ := walkExpr_mints st b
      refine ⟨ms1 ++ [((walkExpr st b).2.nextID % U30, .LoopHeader)], ?_⟩
      have h2 := makeLogCall_mints (walkExpr st b).2 (walkExpr st b).1 .LoopHeader
      simp only [walkExpr]
      exact mintsFrom_trans h1 h2
  | ret v =>
      cases v with
      | none =>
          refine ⟨[(st.nextID % U30, .Return)], ?_⟩
          simp only [walkExpr]
          exact makeLogCall_mints st (.ret none) .Return
      | some v =>
          obtain ⟨ms1, h1⟩ := walkExpr_mints st v
          refine ⟨ms1 ++ [((walkExpr st v).2.nextID % U30, .Return)], ?_⟩
          have h2 := makeLogCall_mints (walkExpr st v).2 (.ret (some (walkExpr st v).1)) .Return
          simp only [walkExpr]
          exact mintsFrom_trans h1 h2
  | call n args =>
      simp only [walkExpr]
      exact walkList_mints st args
  | const c =>
      exact ⟨[], by simp only [walkExpr]; exact mintsFrom_rfl st⟩
  | other es =>
      simp only [walkExpr]
      exact walkList_mints st es

theorem walkList_mints (st : PassState) (es : List Expr) :
    ∃ ms, MintsFrom st (walkList st es).2 ms := by
  cases es with
  | nil =>
      rw [walkList_nil]
      exact ⟨[], mintsFrom_rfl st⟩
  | cons e es =>
      rw [walkList_cons]
      obtain ⟨ms1, h1⟩ := walkExpr_mints st e
      obtain ⟨ms2, h2⟩ := walkList_mints (walkExpr st e).2 es
      exact ⟨ms1 ++ ms2, mintsFrom_trans h1 h2⟩
end

theorem isLogCall_encode (k kk : LogKind) (s : Nat) :
    isLogCall kk (.call LOGGER [.const (encodeLogID s k)]) =
      (kindCode k == kindCode kk) := by
  simp [isLogCall, decode_encode_kind]

theorem isLogCall_ne_logger (k : LogKind) (n : String) (args : List Expr)
    (hn : (n == LOGGER) = false) : isLogCall k (.call n args) = false := by
  simp only [isLogCall]
  split
  · simp [hn]
  · rfl

theorem countLogList_append (k : LogKind) (xs ys : List Expr) :
    countLogList k (xs ++ ys) = countLogList k xs + countLogList k ys := by
  induction xs with
  | nil => simp [countLogList]
  | cons x xs ih => simp [countLogList, ih]; omega

mutual
theorem walkExpr_noFE (st : PassState) (e : Expr)
    (h : noLoggerCalls e = true) :
    countLog .FunctionEntry (walkExpr st e).1 = 0 := by
  cases e with
  | block es =>
      rw [walkExpr_block]
      simp only [countLog]
      exact walkList_noFE st es h
  | loop b =>
      simp only [noLoggerCalls] at h
      simp only [walkExpr, makeLogCall, countLog, countLogList,
        isLogCall_encode, kindCode]
      simp [walkExpr_noFE st b h]
  | ret v =>
      cases v with
      | none =>
          simp [walkExpr, makeLogCall, countLog, countLogList,
            isLogCall_encode, kindCode]
      | some v =>
          simp only [noLoggerCalls] at h
          simp only [walkExpr, makeLogCall, countLog, countLogList,
            isLogCall_encode, kindCode]
          simp [walkExpr_noFE st v h]
  | call n args =>
      simp only [noLoggerCalls, Bool.and_eq_true, bne_iff_ne] at h
      have hn : (n == LOGGER) = false := by
        simp [h.1]
      simp only [walkExpr, countLog]
      rw [isLogCall_ne_logger _ _ _ hn]
      simp [walkList_noFE st args h.2]
  | const c => simp [walkExpr, countLog]
  | other es =>
      simp only [walkExpr, countLog]
      exact walkList_noFE st es h

theorem walkList_noFE (st : PassState) (es : List Expr)
    (h : noLoggerCallsList es = true) :
    countLogList .FunctionEntry (walkList st es).1 = 0 := by
  cases es with
  | nil => rw [walkList_nil]; rfl
  | cons e es =>
      simp only [noLoggerCallsList, Bool.and_eq_true] at h
      rw [walkList_cons]
      simp only [countLogList]
      rw [walkExpr_noFE st e h.1, walkList_noFE (walkExpr st e).2 es h.2]
end

theorem blockOK_of_all (es : List Expr) (h1 : instrumentedOKList es = true)
    (h2 : ∀ e ∈ es, isRetNode e = false) : blockOK es = true := by
  match es with
  | [] => simpa [blockOK] using h1
  | [a] => simpa [blockOK, instrumentedOKList] using h1
  | [a, b] =>
      cases b with
      | ret v =>
          have := h2 (.ret v) (by simp)
          simp [isRetNode] at this
      | _ => simpa [blockOK] using h1
  | a :: b :: c :: r => simpa [blockOK] using h1

mutual
theorem walkExpr_instrOK (st : PassState) (e : Expr) :
    instrumentedOK (walkExpr st e).1 = true := by
  cases e with
  | block es =>
      rw [walkExpr_block]
      simp only [instrumentedOK]
      exact blockOK_of_all _ (walkList_instrOK st es) (walkList_not_ret es st)
  | loop b =>
      simp only [walkExpr, makeLogCall, instrumentedOK, loopBodyOK]
      simp [isLogCall_encode, kindCode, walkExpr_instrOK st b]
  | ret v =>
      cases v with
      | none =>
          simp [walkExpr, makeLogCall, instrumentedOK, blockOK,
            instrumentedOKOpt, isLogCall_encode, kindCode]
      | some v =>
          simp only [walkExpr, makeLogCall, instrumentedOK, blockOK,
            instrumentedOKOpt]
          simp [isLogCall_encode, kindCode, walkExpr_instrOK st v]
  | call n args =>
      simp only [walkExpr, instrumentedOK]
      exact walkList_instrOK st args
  | const c => simp [walkExpr, instrumentedOK]
  | other es =>
      simp only [walkExpr, instrumentedOK]
      exact walkList_instrOK st es

theorem walkList_instrOK (st : PassState) (es : List Expr) :
    instrumentedOKList (walkList st es).1 = true := by
  cases es with
  | nil => rw [walkList_nil]; simp [instrumentedOKList]
  | cons e es =>
      rw [walkList_cons]
      simp only [instrumentedOKList, Bool.and_eq_true]
      exact ⟨walkExpr_instrOK st e, walkList_instrOK (walkExpr st e).2 es⟩
end

theorem instrumentedOKList_iff_all (es : List Expr) :
    instrumentedOKList es = true ↔ ∀ e ∈ es, instrumentedOK e = true := by
  induction es with
  | nil => simp [instrumentedOKList]
  | cons e es ih => simp [instrumentedOKList, ih]

theorem visitFunction_shape (st1 : PassState) (f1 : Function)
    (him : f1.imported = false) :
    ∃ body1 st2,
      visitFunction st1 f1 =
        ({ f1 with body := (makeLogCall st2 body1 .FunctionEntry).1 },
         { (makeLogCall st2 body1 .FunctionEntry).2.2 with
             functionNameIdPairs :=
               st2.functionNameIdPairs ++ [(f1.name, st2.nextID % U30)] }) ∧
      st2.functionNameIdPairs = st1.functionNameIdPairs ∧
      ((∀ bs, f1.body ≠ .block bs) → body1 = f1.body ∧ st2 = st1) ∧
      (f1.body = .block [] → body1 = f1.body ∧ st2 = st1) ∧
      (∀ e es, f1.body = .block (e :: es) →
        body1 = .block ((e :: es).dropLast ++
          [(makeLogCall st1 ((e :: es).getLast (List.cons_ne_nil e es))
            .Return).1]) ∧
        st2 = (makeLogCall st1 ((e :: es).getLast (List.cons_ne_nil e es))
          .Return).2.2) := by
  obtain ⟨nm, md, bs, ps, rs, bd⟩ := f1
  cases bd with
  | block l =>
      cases l with
      | nil =>
          refine ⟨.block [], st1, ?_, rfl, ?_, fun _ => ⟨rfl, rfl⟩, ?_⟩
          · simp [visitFunction, him, makeLogCall]
          · intro h; exact absurd rfl (h [])
          · intro e es h; simp at h
      | cons e es =>
          refine ⟨.block ((e :: es).dropLast ++
              [(makeLogCall st1 ((e :: es).getLast (List.cons_ne_nil e es))
                .Return).1]),
            (makeLogCall st1 ((e :: es).getLast (List.cons_ne_nil e es))
              .Return).2.2, ?_, ?_, ?_, ?_, ?_⟩
          · simp [visitFunction, him, makeLogCall]
          · simp [makeLogCall]
          · intro h; exact absurd rfl (h (e :: es))
          · intro h; simp at h
          · intro e2 es2 h
            injection h with h1
            injection h1 with h2 h3
            subst h2; subst h3
            exact ⟨rfl, rfl⟩
  | loop b =>
      refine ⟨.loop b, st1, ?_, rfl, fun _ => ⟨rfl, rfl⟩, ?_, ?_⟩
      · simp [visitFunction, him, makeLogCall]
      · intro h; exact Expr.noConfusion h
      · intro e es h; exact Expr.noConfusion h
  | ret v =>
      refine ⟨.ret v, st1, ?_, rfl, fun _ => ⟨rfl, rfl⟩, ?_, ?_⟩
      · simp [visitFunction, him, makeLogCall]
      · intro h; exact Expr.noConfusion h
      · intro e es h; exact Expr.noConfusion h
  | call n args =>
      refine ⟨.call n args, st1, ?_, rfl, fun _ => ⟨rfl, rfl⟩, ?_, ?_⟩
      · simp [visitFunction, him, makeLogCall]
      · intro h; exact Expr.noConfusion h
      · intro e es h; exact Expr.noConfusion h
  | const c =>
      refine ⟨.const c, st1, ?_, rfl, fun _ => ⟨rfl, rfl⟩, ?_, ?_⟩
      · simp [visitFunction, him, makeLogCall]
      · intro h; exact Expr.noConfusion h
      · intro e es h; exact Expr.noConfusion h
  | other l =>
      refine ⟨.other l, st1, ?_, rfl, fun _ => ⟨rfl, rfl⟩, ?_, ?_⟩
      · simp [visitFunction, him, makeLogCall]
      · intro h; exact Expr.noConfusion h
      · intro e es h; exact Expr.noConfusion h

theorem instrumentedOK_logcall (n : String) (r : Nat) :
    instrumentedOK (.call n [.const r]) = true := by
  simp [instrumentedOK, instrumentedOKList]

theorem blockOK_wrap_last (l : List Expr) (st1 : PassState) (h : l ≠ [])
    (hall : ∀ e ∈ l, instrumentedOK e = true)
    (hnr : ∀ e ∈ l, isRetNode e = false) :
    instrumentedOK (.block (l.dropLast ++
      [(makeLogCall st1 (l.getLast h) .Return).1])) = true := by
  have hlast_mem := List.getLast_mem h
  simp only [makeLogCall, instrumentedOK]
  apply blockOK_of_all
  · rw [instrumentedOKList_iff_all]
    intro e he
    rcases List.mem_append.mp he with he | he
    · exact hall e (List.dropLast_subset l he)
    · rcases List.mem_singleton.mp he with rfl
      simp only [instrumentedOK]
      apply blockOK_of_all
      · rw [instrumentedOKList_iff_all]
        intro x hx
        rcases List.mem_cons.mp hx with rfl | hx
        · exact instrumentedOK_logcall _ _
        · rcases List.mem_singleton.mp hx with rfl
          exact hall _ hlast_mem
      · intro x hx
        rcases List.mem_cons.mp hx with rfl | hx
        · simp [isRetNode]
        · rcases List.mem_singleton.mp hx with rfl
          exact hnr _ hlast_mem
  · intro e he
    rcases List.mem_append.mp he with he | he
    · exact hnr e (List.dropLast_subset l he)
    · rcases List.mem_singleton.mp he with rfl
      simp [isRetNode]

/-- C2: in an instrumented function every explicit return is replaced by a
sequence of a Return-kind trace call followed by the return, and every
loop's body becomes a sequence of a LoopHeader-kind trace call followed by
the original body, so the whole rewritten body satisfies `instrumentedOK`:
no bare return remains and every loop body starts with its trace call. -/
theorem return_loop_traced (fs : FilterState) (st : PassState) (f : Function)
    (hig : funcIgnored fs f.name = false) (him : f.imported = false) :
    instrumentedOK (walkFunction fs st f).1.body = true := by
  simp only [walkFunction, hig, doWalkFunction, him, Bool.false_eq_true,
    if_false]
  have him2 : ({ f with body := (walkExpr st f.body).1 } : Function).imported
      = false := him
  obtain ⟨body1, st2, heq, hpairs, hnb, hbnil, hbcons⟩ :=
    visitFunction_shape (walkExpr st f.body).2
      { f with body := (walkExpr st f.body).1 } him2
  rw [heq]
  simp only [makeLogCall, instrumentedOK]
  apply blockOK_of_all
  · rw [instrumentedOKList_iff_all]
    intro e he
    rcases List.mem_cons.mp he with rfl | he
    · exact instrumentedOK_logcall _ _
    have he2 : e = body1 := List.mem_singleton.mp he
    rw [he2]
    cases hfb : f.body with
    | block bs =>
        have hw : (walkExpr st f.body).1 = .block (walkList st bs).1 := by
          rw [hfb, walkExpr_block]
        cases hL : (walkList st bs).1 with
        | nil =>
            obtain ⟨hb1, _⟩ := hbnil (by rw [hw, hL])
            rw [hb1]
            show instrumentedOK (walkExpr st f.body).1 = true
            exact walkExpr_instrOK st f.body
        | cons l0 ls =>
            obtain ⟨hb1, _⟩ := hbcons l0 ls (by rw [hw, hL])
            rw [hb1]
            apply blockOK_wrap_last
            · intro x hx
              apply (instrumentedOKList_iff_all _).mp (walkList_instrOK st bs)
              rw [hL]; exact hx
            · intro x hx
              apply walkList_not_ret bs st
              rw [hL]; exact hx
    | loop b =>
        obtain ⟨hb1, _⟩ := hnb (by intro bs hcon; rw [hfb] at hcon; simp [walkExpr, makeLogCall] at hcon)
        rw [hb1]
        show instrumentedOK (walkExpr st f.body).1 = true
        exact walkExpr_instrOK st f.body
    | ret v =>
        cases v with
        | none =>
            have hw : (walkExpr st f.body).1 =
                .block [.call LOGGER [.const (encodeLogID st.nextID .Return)],
                  .ret none] := by
              rw [hfb]; simp [walkExpr, makeLogCall]
            obtain ⟨hb1, _⟩ := hbcons _ _ hw
            rw [hb1]
            simp [makeLogCall, instrumentedOK, blockOK, instrumentedOKList,
              instrumentedOKOpt, isLogCall_encode, kindCode,
              instrumentedOK_logcall]
        | some v =>
            have hw : (walkExpr st f.body).1 =
                .block [.call LOGGER
                  [.const (encodeLogID (walkExpr st v).2.nextID .Return)],
                  .ret (some (walkExpr st v).1)] := by
              rw [hfb]; simp [walkExpr, makeLogCall]
            obtain ⟨hb1, _⟩ := hbcons _ _ hw
            rw [hb1]
            simp [makeLogCall, instrumentedOK, blockOK, instrumentedOKList,
              instrumentedOKOpt, isLogCall_encode, kindCode,
              instrumentedOK_logcall, walkExpr_instrOK st v]
    | call n args =>
        obtain ⟨hb1, _⟩ := hnb (by intro bs hcon; rw [hfb] at hcon; simp [walkExpr] at hcon)
        rw [hb1]
        show instrumentedOK (walkExpr st f.body).1 = true
        exact walkExpr_instrOK st f.body
    | const c =>
        obtain ⟨hb1, _⟩ := hnb (by intro bs hcon; rw [hfb] at hcon; simp [walkExpr] at hcon)
        rw [hb1]
        show instrumentedOK (walkExpr st f.body).1 = true
        exact walkExpr_instrOK st f.body
    | other es =>
        obtain ⟨hb1, _⟩ := hnb (by intro bs hcon; rw [hfb] at hcon; simp [walkExpr] at hcon)
        rw [hb1]
        show instrumentedOK (walkExpr st f.body).1 = true
        exact walkExpr_instrOK st f.body
  · intro e he
    rcases List.mem_cons.mp he with rfl | he
    · simp [isRetNode]
    have he2 : e = body1 := List.mem_singleton.mp he
    rw [he2]
    cases hfb : f.body with
    | block bs =>
        have hw : (walkExpr st f.body).1 = .block (walkList st bs).1 := by
          rw [hfb, walkExpr_block]
        cases hL : (walkList st bs).1 with
        | nil =>
            obtain ⟨hb1, _⟩ := hbnil (by rw [hw, hL])
            rw [hb1, hw]
            simp [isRetNode]
        | cons l0 ls =>
            obtain ⟨hb1, _⟩ := hbcons l0 ls (by rw [hw, hL])
            rw [hb1]
            simp [isRetNode]
    | loop b =>
        obtain ⟨hb1, _⟩ := hnb (by intro bs hcon; rw [hfb] at hcon; simp [walkExpr, makeLogCall] at hcon)
        rw [hb1]
        exact walkExpr_not_ret st f.body
    | ret v =>
        cases v with
        | none =>
            have hw : (walkExpr st f.body).1 =
                .block [.call LOGGER [.const (encodeLogID st.nextID .Return)],
                  .ret none] := by
              rw [hfb]; simp [walkExpr, makeLogCall]
            obtain ⟨hb1, _⟩ := hbcons _ _ hw
            rw [hb1]
            simp [makeLogCall, isRetNode]
        | some v =>
            have hw : (walkExpr st f.body).1 =
                .block [.call LOGGER
                  [.const (encodeLogID (walkExpr st v).2.nextID .Return)],
                  .ret (some (walkExpr st v).1)] := by
              rw [hfb]; simp [walkExpr, makeLogCall]
            obtain ⟨hb1, _⟩ := hbcons _ _ hw
            rw [hb1]
            simp [makeLogCall, isRetNode]
    | call n args =>
        obtain ⟨hb1, _⟩ := hnb (by intro bs hcon; rw [hfb] at hcon; simp [walkExpr] at hcon)
        rw [hb1]
        exact walkExpr_not_ret st f.body
    | const c =>
        obtain ⟨hb1, _⟩ := hnb (by intro bs hcon; rw [hfb] at hcon; simp [walkExpr] at hcon)
        rw [hb1]
        exact walkExpr_not_ret st f.body
    | other es =>
        obtain ⟨hb1, _⟩ := hnb (by intro bs hcon; rw [hfb] at hcon; simp [walkExpr] at hcon)
        rw [hb1]
        exact walkExpr_not_ret st f.body

/-- Witness for return_loop_traced at a concrete function body with a loop
and an explicit return. -/
theorem return_loop_traced_witness :
    instrumentedOK
      (walkFunction ⟨[], [], false⟩ initState exFnB).1.body = true :=
  return_loop_traced ⟨[], [], false⟩ initState exFnB (by decide) (by decide)

/-- C1: for a function passing the name filter and not imported, the
rewriter first (when the walked body is a block with at least one
statement) replaces the block's last statement by
`sequence(traceCall(Return), statement)` and then wraps the whole body as
`sequence(traceCall(FunctionEntry), body)`; the rewritten body starts with
the FunctionEntry trace call (the only one, when the input body called no
logger), and the sequence number minted for it is exactly the one recorded
in the function's export association. -/
theorem function_entry_wrap (fs : FilterState) (st : PassState) (f : Function)
    (hig : funcIgnored fs f.name = false) (him : f.imported = false) :
    ∃ s B,
      (walkFunction fs st f).1.body =
        .block [.call LOGGER [.const (encodeLogID s .FunctionEntry)], B] ∧
      isLogCall .FunctionEntry
        (.call LOGGER [.const (encodeLogID s .FunctionEntry)]) = true ∧
      (walkFunction fs st f).2.functionNameIdPairs =
        st.functionNameIdPairs ++ [(f.name, s)] ∧
      (∀ e es, f.body = .block (e :: es) →
        ∃ front lastW c,
          (walkExpr st f.body).1 = .block (front ++ [lastW]) ∧
          B = .block (front ++
            [.block [.call LOGGER [.const (encodeLogID c .Return)], lastW]]) ∧
          isLogCall .Return
            (.call LOGGER [.const (encodeLogID c .Return)]) = true) ∧
      (noLoggerCalls f.body = true →
        countLog .FunctionEntry (walkFunction fs st f).1.body = 1) := by
  simp only [walkFunction, hig, doWalkFunction, him, Bool.false_eq_true,
    if_false]
  have him2 : ({ f with body := (walkExpr st f.body).1 } : Function).imported
      = false := him
  obtain ⟨body1, st2, heq, hpairs, hnb, hbnil, hbcons⟩ :=
    visitFunction_shape (walkExpr st f.body).2
      { f with body := (walkExpr st f.body).1 } him2
  have hbody : (visitFunction (walkExpr st f.body).2
      { f with body := (walkExpr st f.body).1 }).1.body =
      (makeLogCall st2 body1 .FunctionEntry).1 := by rw [heq]
  have hpairs2 : (visitFunction (walkExpr st f.body).2
      { f with body := (walkExpr st f.body).1 }).2.functionNameIdPairs =
      st2.functionNameIdPairs ++ [(f.name, st2.nextID % U30)] := by rw [heq]
  refine ⟨st2.nextID % U30, body1, ?_, ?_, ?_, ?_, ?_⟩
  · rw [hbody, ← encodeLogID_mod]
    simp [makeLogCall]
  · simp [isLogCall_encode]
  · rw [hpairs2, hpairs, walkExpr_pairs]
  · intro e es hfb
    have hw : (walkExpr st f.body).1 = .block (walkList st (e :: es)).1 := by
      rw [hfb, walkExpr_block]
    have hlen : (walkList st (e :: es)).1.length = (e :: es).length :=
      walkList_length _ _
    cases hL : (walkList st (e :: es)).1 with
    | nil => rw [hL] at hlen; simp at hlen
    | cons l0 ls =>
        obtain ⟨hb1, _⟩ := hbcons l0 ls (by rw [hw, hL])
        refine ⟨(l0 :: ls).dropLast,
          (l0 :: ls).getLast (List.cons_ne_nil l0 ls),
          (walkExpr st f.body).2.nextID, ?_, ?_, ?_⟩
        · rw [hw, hL, List.dropLast_append_getLast]
        · rw [hb1]
          simp [makeLogCall]
        · simp [isLogCall_encode]
  · intro hnl
    rw [hbody]
    have h1 : countLog .FunctionEntry body1 = 0 := by
      cases hfb : f.body with
      | block bs =>
          have hw : (walkExpr st f.body).1 = .block (walkList st bs).1 := by
            rw [hfb, walkExpr_block]
          have hLz : countLogList .FunctionEntry (walkList st bs).1 = 0 := by
            apply walkList_noFE
            rw [hfb] at hnl
            simpa [noLoggerCalls] using hnl
          cases hL : (walkList st bs).1 with
          | nil =>
              obtain ⟨hb1, _⟩ := hbnil (by rw [hw, hL])
              rw [hb1]
              show countLog .FunctionEntry (walkExpr st f.body).1 = 0
              exact walkExpr_noFE st f.body hnl
          | cons l0 ls =>
              obtain ⟨hb1, _⟩ := hbcons l0 ls (by rw [hw, hL])
              rw [hb1]
              rw [hL] at hLz
              have hdec : (l0 :: ls).dropLast ++
                  [(l0 :: ls).getLast (List.cons_ne_nil l0 ls)] = l0 :: ls :=
                List.dropLast_append_getLast _
              have hz2 : countLogList .FunctionEntry ((l0 :: ls).dropLast ++
                  [(l0 :: ls).getLast (List.cons_ne_nil l0 ls)]) = 0 := by
                rw [hdec]; exact hLz
              rw [countLogList_append] at hz2
              simp only [countLogList] at hz2
              simp [countLog, countLogList, countLogList_append, makeLogCall,
                isLogCall_encode, kindCode]
              omega
      | loop b =>
          obtain ⟨hb1, _⟩ := hnb (by
            intro bs hcon; rw [hfb] at hcon
            simp [walkExpr, makeLogCall] at hcon)
          rw [hb1]
          show countLog .FunctionEntry (walkExpr st f.body).1 = 0
          exact walkExpr_noFE st f.body hnl
      | ret v =>
          cases v with
          | none =>
              have hw : (walkExpr st f.body).1 =
                  .block [.call LOGGER
                    [.const (encodeLogID st.nextID .Return)], .ret none] := by
                rw [hfb]; simp [walkExpr, makeLogCall]
              obtain ⟨hb1, _⟩ := hbcons _ _ hw
              rw [hb1]
              simp [makeLogCall, countLog, countLogList, countLogList_append,
                isLogCall_encode, kindCode]
          | some v =>
              have hw : (walkExpr st f.body).1 =
                  .block [.call LOGGER
                    [.const (encodeLogID (walkExpr st v).2.nextID .Return)],
                    .ret (some (walkExpr st v).1)] := by
                rw [hfb]; simp [walkExpr, makeLogCall]
              obtain ⟨hb1, _⟩ := hbcons _ _ hw
              rw [hb1]
              have hv : noLoggerCalls v = true := by
                rw [hfb] at hnl
                simpa [noLoggerCalls] using hnl
              simp [makeLogCall, countLog, countLogList, countLogList_append,
                isLogCall_encode, kindCode, walkExpr_noFE st v hv]
      | call n args =>
          obtain ⟨hb1, _⟩ := hnb (by
            intro bs hcon; rw [hfb] at hcon
            simp [walkExpr] at hcon)
          rw [hb1]
          show countLog .FunctionEntry (walkExpr st f.body).1 = 0
          exact walkExpr_noFE st f.body hnl
      | const c =>
          obtain ⟨hb1, _⟩ := hnb (by
            intro bs hcon; rw [hfb] at hcon
            simp [walkExpr] at hcon)
          rw [hb1]
          show countLog .FunctionEntry (walkExpr st f.body).1 = 0
          exact walkExpr_noFE st f.body hnl
      | other es =>
          obtain ⟨hb1, _⟩ := hnb (by
            intro bs hcon; rw [hfb] at hcon
            simp [walkExpr] at hcon)
          rw [hb1]
          show countLog .FunctionEntry (walkExpr st f.body).1 = 0
          exact walkExpr_noFE st f.body hnl
    simp [makeLogCall, countLog, countLogList, isLogCall_encode, kindCode, h1]

/-- Witness for function_entry_wrap at a concrete two-statement body. -/
theorem function_entry_wrap_witness :
    ∃ s B,
      (walkFunction ⟨[], [], false⟩ initState exFnB).1.body =
        .block [.call LOGGER [.const (encodeLogID s .FunctionEntry)], B] ∧
      isLogCall .FunctionEntry
        (.call LOGGER [.const (encodeLogID s .FunctionEntry)]) = true ∧
      (walkFunction ⟨[], [], false⟩ initState exFnB).2.functionNameIdPairs =
        initState.functionNameIdPairs ++ [(exFnB.name, s)] ∧
      (∀ e es, exFnB.body = .block (e :: es) →
        ∃ front lastW c,
          (walkExpr initState exFnB.body).1 = .block (front ++ [lastW]) ∧
          B = .block (front ++
            [.block [.call LOGGER [.const (encodeLogID c .Return)], lastW]]) ∧
          isLogCall .Return
            (.call LOGGER [.const (encodeLogID c .Return)]) = true) ∧
      (noLoggerCalls exFnB.body = true →
        countLog .FunctionEntry
          (walkFunction ⟨[], [], false⟩ initState exFnB).1.body = 1) :=
  function_entry_wrap ⟨[], [], false⟩ initState exFnB (by decide) (by decide)

theorem visitFunction_block_ne (st1 : PassState) (f1 : Function)
    (him : f1.imported = false) (L : List Expr) (hL : L ≠ [])
    (hb : f1.body = .block L) :
    visitFunction st1 f1 =
      ({ f1 with body := (makeLogCall (makeLogCall st1 (L.getLast hL) .Return).2.2
          (.block (L.dropLast ++ [(makeLogCall st1 (L.getLast hL) .Return).1]))
          .FunctionEntry).1 },
       { (makeLogCall (makeLogCall st1 (L.getLast hL) .Return).2.2
          (.block (L.dropLast ++ [(makeLogCall st1 (L.getLast hL) .Return).1]))
          .FunctionEntry).2.2 with
          functionNameIdPairs :=
            (makeLogCall st1 (L.getLast hL) .Return).2.2.functionNameIdPairs ++
              [(f1.name,
                (makeLogCall st1 (L.getLast hL) .Return).2.2.nextID % U30)] }) := by
  obtain ⟨l0, ls, rfl⟩ := List.exists_cons_of_ne_nil hL
  obtain ⟨body1, st2, heq, _, _, _, hbcons⟩ := visitFunction_shape st1 f1 him
  obtain ⟨hb1, hst2⟩ := hbcons l0 ls hb
  rw [heq, hb1, hst2]

/-- C10 (implicit behavior): when an instrumented non-imported function's
body is a block whose last statement is an explicit return, the rewrite
produces two nested Return-kind trace calls in front of that return — one
from the return-node rule, one from the unconditional trailing-statement
wrap — carrying consecutive, hence distinct, sequence numbers. -/
theorem double_return_trace (fs : FilterState) (st : PassState)
    (f : Function) (es0 : List Expr) (v : Option Expr)
    (hig : funcIgnored fs f.name = false) (him : f.imported = false)
    (hb : f.body = .block (es0 ++ [.ret v])) :
    ∃ s1 front v2,
      (walkFunction fs st f).1.body =
        .block [.call LOGGER
            [.const (encodeLogID ((s1 + 2) % U30) .FunctionEntry)],
          .block (front ++
            [.block [.call LOGGER
                [.const (encodeLogID ((s1 + 1) % U30) .Return)],
              .block [.call LOGGER [.const (encodeLogID s1 .Return)],
                .ret v2]]])] ∧
      s1 < U30 ∧ s1 ≠ (s1 + 1) % U30 ∧ (s1 + 1) % U30 ≠ (s1 + 2) % U30 := by
  simp only [walkFunction, hig, doWalkFunction, him, Bool.false_eq_true,
    if_false]
  have key : ∃ n1 v2,
      (walkExpr st f.body).1 =
        .block ((walkList st es0).1 ++
          [.block [.call LOGGER [.const (encodeLogID n1 .Return)],
            .ret v2]]) ∧
      (walkExpr st f.body).2.nextID = (n1 + 1) % U32 := by
    cases v with
    | none =>
        refine ⟨(walkList st es0).2.nextID, none, ?_, ?_⟩ <;>
          rw [hb, walkExpr_block, walkList_append] <;>
          simp [walkList, walkExpr, makeLogCall]
    | some v0 =>
        refine ⟨(walkExpr (walkList st es0).2 v0).2.nextID,
          some (walkExpr (walkList st es0).2 v0).1, ?_, ?_⟩ <;>
          rw [hb, walkExpr_block, walkList_append] <;>
          simp [walkList, walkExpr, makeLogCall]
  obtain ⟨n1, v2, hwalk, hnid⟩ := key
  have hLne : (walkList st es0).1 ++
      [Expr.block [.call LOGGER [.const (encodeLogID n1 .Return)],
        .ret v2]] ≠ [] := by simp
  have him2 : ({ f with body := (walkExpr st f.body).1 } : Function).imported
      = false := him
  have heq := visitFunction_block_ne (walkExpr st f.body).2
    { f with body := (walkExpr st f.body).1 } him2 _ hLne hwalk
  have hgl : ((walkList st es0).1 ++
      [Expr.block [.call LOGGER [.const (encodeLogID n1 .Return)],
        .ret v2]]).getLast hLne =
      Expr.block [.call LOGGER [.const (encodeLogID n1 .Return)], .ret v2] :=
    List.getLast_congr _ _ rfl ▸ List.getLast_append_singleton _
  have hdl : ((walkList st es0).1 ++
      [Expr.block [.call LOGGER [.const (encodeLogID n1 .Return)],
        .ret v2]]).dropLast = (walkList st es0).1 := by simp
  rw [hgl, hdl] at heq
  rw [heq]
  have hU : (0 : Nat) < U30 := by norm_num [U30]
  refine ⟨n1 % U30, (walkList st es0).1, v2, ?_, Nat.mod_lt _ hU, ?_, ?_⟩
  · simp only [makeLogCall, hnid]
    have h1 : encodeLogID ((n1 + 1) % U32) .Return =
        encodeLogID ((n1 % U30 + 1) % U30) .Return := by
      rw [encodeLogID_mod]
      congr 1
      simp only [U30, U32]
      omega
    have h2 : encodeLogID (((n1 + 1) % U32 + 1) % U32) .FunctionEntry =
        encodeLogID ((n1 % U30 + 2) % U30) .FunctionEntry := by
      rw [encodeLogID_mod]
      congr 1
      simp only [U30, U32]
      omega
    have h0 : encodeLogID n1 .Return = encodeLogID (n1 % U30) .Return :=
      encodeLogID_mod n1 .Return
    rw [h1, h2, h0]
  · have h := Nat.mod_lt n1 hU
    simp only [U30] at *
    omega
  · have h := Nat.mod_lt n1 hU
    simp only [U30] at *
    omega

/-- Witness for double_return_trace at a concrete one-statement body whose
last (and only) statement is a bare return. -/
theorem double_return_trace_witness :
    ∃ s1 front v2,
      (walkFunction ⟨[], [], false⟩ initState
        ⟨"r", "", "", [], [], .block [.ret none]⟩).1.body =
        .block [.call LOGGER
            [.const (encodeLogID ((s1 + 2) % U30) .FunctionEntry)],
          .block (front ++
            [.block [.call LOGGER
                [.const (encodeLogID ((s1 + 1) % U30) .Return)],
              .block [.call LOGGER [.const (encodeLogID s1 .Return)],
                .ret v2]]])] ∧
      s1 < U30 ∧ s1 ≠ (s1 + 1) % U30 ∧ (s1 + 1) % U30 ≠ (s1 + 2) % U30 :=
  double_return_trace ⟨[], [], false⟩ initState
    ⟨"r", "", "", [], [], .block [.ret none]⟩ [] none (by decide) (by decide)
    rfl

theorem mintsFrom_update_pairs {st st2 : PassState}
    {ms : List (Nat × LogKind)} (pairs : List (String × Nat))
    (h : MintsFrom st st2 ms) :
    MintsFrom st { st2 with functionNameIdPairs := pairs } ms := h

theorem walkFunction_instr_mints (fs : FilterState) (st : PassState)
    (f : Function) (hig : funcIgnored fs f.name = false)
    (him : f.imported = false) :
    ∃ ms fid,
      MintsFrom st (walkFunction fs st f).2 (ms ++ [(fid, .FunctionEntry)]) ∧
      (walkFunction fs st f).2.functionNameIdPairs =
        st.functionNameIdPairs ++ [(f.name, fid)] := by
  simp only [walkFunction, hig, doWalkFunction, him, Bool.false_eq_true,
    if_false]
  have him2 : ({ f with body := (walkExpr st f.body).1 } : Function).imported
      = false := him
  obtain ⟨body1, st2, heq, hpairs, hnb, hbnil, hbcons⟩ :=
    visitFunction_shape (walkExpr st f.body).2
      { f with body := (walkExpr st f.body).1 } him2
  obtain ⟨ms0, h0⟩ := walkExpr_mints st f.body
  have hst2 : ∃ msR : List (Nat × LogKind),
      MintsFrom (walkExpr st f.body).2 st2 msR := by
    cases hw : (walkExpr st f.body).1 with
    | block l =>
        cases l with
        | nil =>
            obtain ⟨_, h⟩ := hbnil hw
            rw [h]
            exact ⟨[], mintsFrom_rfl _⟩
        | cons a b =>
            obtain ⟨_, h⟩ := hbcons a b hw
            rw [h]
            exact ⟨_, makeLogCall_mints _ _ _⟩
    | loop b =>
        obtain ⟨_, h⟩ := hnb (by intro bs hcon; rw [hw] at hcon; cases hcon)
        rw [h]
        exact ⟨[], mintsFrom_rfl _⟩
    | ret v =>
        obtain ⟨_, h⟩ := hnb (by intro bs hcon; rw [hw] at hcon; cases hcon)
        rw [h]
        exact ⟨[], mintsFrom_rfl _⟩
    | call n args =>
        obtain ⟨_, h⟩ := hnb (by intro bs hcon; rw [hw] at hcon; cases hcon)
        rw [h]
        exact ⟨[], mintsFrom_rfl _⟩
    | const c =>
        obtain ⟨_, h⟩ := hnb (by intro bs hcon; rw [hw] at hcon; cases hcon)
        rw [h]
        exact ⟨[], mintsFrom_rfl _⟩
    | other es =>
        obtain ⟨_, h⟩ := hnb (by intro bs hcon; rw [hw] at hcon; cases hcon)
        rw [h]
        exact ⟨[], mintsFrom_rfl _⟩
  obtain ⟨msR, hR⟩ := hst2
  have hFE := makeLogCall_mints st2 body1 .FunctionEntry
  refine ⟨ms0 ++ msR, st2.nextID % U30, ?_, ?_⟩
  · rw [heq]
    have := mintsFrom_trans (mintsFrom_trans h0 hR)
      (mintsFrom_update_pairs
        (st2.functionNameIdPairs ++ [(f.name, st2.nextID % U30)]) hFE)
    simpa [List.append_assoc] using this
  · rw [heq]
    show st2.functionNameIdPairs ++ [(f.name, st2.nextID % U30)] = _
    rw [hpairs, walkExpr_pairs]

theorem walkFunction_mints (fs : FilterState) (st : PassState)
    (f : Function) : ∃ ms, MintsFrom st (walkFunction fs st f).2 ms := by
  cases hig : funcIgnored fs f.name
  · cases him : f.imported
    · obtain ⟨ms, fid, h, _⟩ := walkFunction_instr_mints fs st f hig him
      exact ⟨ms ++ [(fid, .FunctionEntry)], h⟩
    · simp only [walkFunction, hig, doWalkFunction, him, visitFunction,
        Bool.false_eq_true, if_false, if_true]
      exact ⟨[], mintsFrom_rfl st⟩
  · simp only [walkFunction, hig, if_true]
    exact ⟨[], mintsFrom_rfl st⟩

theorem walkFunctions_mints (fs : FilterState) (funcs : List Function) :
    ∀ st, ∃ ms, MintsFrom st (walkFunctions fs st funcs).2 ms := by
  induction funcs with
  | nil =>
      intro st
      simp only [walkFunctions]
      exact ⟨[], mintsFrom_rfl st⟩
  | cons f rest ih =>
      intro st
      simp only [walkFunctions]
      obtain ⟨ms1, h1⟩ := walkFunction_mints fs st f
      obtain ⟨ms2, h2⟩ := ih (walkFunction fs st f).2
      exact ⟨ms1 ++ ms2, mintsFrom_trans h1 h2⟩

theorem walkFunction_pair_names (fs : FilterState) (st : PassState)
    (f : Function) :
    (walkFunction fs st f).2.functionNameIdPairs.map Prod.fst =
      st.functionNameIdPairs.map Prod.fst ++
        (if !funcIgnored fs f.name && !f.imported then [f.name] else []) := by
  cases hig : funcIgnored fs f.name
  · cases him : f.imported
    · obtain ⟨_, _, _, h⟩ := walkFunction_instr_mints fs st f hig him
      rw [h]
      simp [hig, him]
    · simp only [walkFunction, hig, doWalkFunction, him, visitFunction,
        Bool.false_eq_true, if_false, if_true]
      simp [hig, him]
  · simp only [walkFunction, hig, if_true]
    simp [hig]

theorem walkFunctions_pair_names (fs : FilterState) (funcs : List Function) :
    ∀ st, (walkFunctions fs st funcs).2.functionNameIdPairs.map Prod.fst =
      st.functionNameIdPairs.map Prod.fst ++
      (funcs.filter (fun f => !funcIgnored fs f.name && !f.imported)).map
        Function.name := by
  induction funcs with
  | nil => intro st; simp [walkFunctions]
  | cons f rest ih =>
      intro st
      simp only [walkFunctions]
      rw [ih, walkFunction_pair_names]
      cases h : (!funcIgnored fs f.name && !f.imported) <;>
        simp [List.filter_cons, h]

/-- C6: within one run sequence numbers are minted starting at 0 in the
exact order the trace-call sites are synthesized — whenever the run stays
within the 30-bit range the minted sequence list is exactly 0,1,2,…,
pairwise distinct and strictly increasing; post-order traversal gives every
mint inside a function's processing a strictly lower number than the
closing FunctionEntry mint, which is the number recorded for the function;
and functions are processed (and their pairs recorded) in the program's
function-list order. -/
theorem mint_ordering :
    (∀ (fs : FilterState) (funcs : List Function),
      (walkFunctions fs initState funcs).2.mintTrace.length ≤ U30 →
        (walkFunctions fs initState funcs).2.mintTrace.map Prod.fst =
          List.range (walkFunctions fs initState funcs).2.mintTrace.length ∧
        List.Pairwise (· < ·)
          ((walkFunctions fs initState funcs).2.mintTrace.map Prod.fst)) ∧
    (∀ (fs : FilterState) (st : PassState) (f : Function),
      funcIgnored fs f.name = false → f.imported = false →
      ∃ ms fid,
        MintsFrom st (walkFunction fs st f).2 (ms ++ [(fid, .FunctionEntry)]) ∧
        (walkFunction fs st f).2.functionNameIdPairs =
          st.functionNameIdPairs ++ [(f.name, fid)] ∧
        (st.nextID + ms.length + 1 ≤ U30 → ∀ p ∈ ms, p.1 < fid)) ∧
    (∀ (fs : FilterState) (st : PassState) (funcs : List Function),
      (walkFunctions fs st funcs).2.functionNameIdPairs.map Prod.fst =
        st.functionNameIdPairs.map Prod.fst ++
        (funcs.filter (fun f => !funcIgnored fs f.name && !f.imported)).map
          Function.name) := by
  refine ⟨?_, ?_, fun fs st funcs => walkFunctions_pair_names fs funcs st⟩
  · intro fs funcs hlen
    obtain ⟨ms, h1, h2⟩ := walkFunctions_mints fs funcs initState
    have htr : (walkFunctions fs initState funcs).2.mintTrace = ms := by
      simpa [initState] using h1
    obtain ⟨hnid, hseq⟩ := h2 (by norm_num [initState, U32])
    rw [htr] at hlen ⊢
    have hmap : ms.map Prod.fst = List.range ms.length := by
      apply List.ext_get
      · simp
      · intro i h1i h2i
        simp only [List.get_map, List.get_range]
        rw [hseq i (by simpa using h1i)]
        simp only [initState, Nat.zero_add]
        exact Nat.mod_eq_of_lt
          (lt_of_lt_of_le (by simpa using h1i) hlen)
    exact ⟨hmap, hmap ▸ List.pairwise_lt_range _⟩
  · intro fs st f hig him
    obtain ⟨ms, fid, hM, hp⟩ := walkFunction_instr_mints fs st f hig him
    refine ⟨ms, fid, hM, hp, ?_⟩
    intro hbound p hpmem
    obtain ⟨h1, h2⟩ := hM
    have hlt32 : st.nextID < U32 := by
      have h3032 : U30 < U32 := by norm_num [U30, U32]
      omega
    obtain ⟨hnid, hseq⟩ := h2 hlt32
    obtain ⟨i, hi⟩ := List.get_of_mem hpmem
    have hilt : (i : Nat) < (ms ++ [(fid, LogKind.FunctionEntry)]).length := by
      simp only [List.length_append, List.length_cons, List.length_nil]
      omega
    have hp1 : ((ms ++ [(fid, LogKind.FunctionEntry)]).get ⟨i, hilt⟩).1 =
        (st.nextID + i) % U30 := hseq i hilt
    have hpel : (ms ++ [(fid, LogKind.FunctionEntry)]).get ⟨i, hilt⟩ = p := by
      simp only [List.get_eq_getElem]
      rw [List.getElem_append_left i.isLt]
      simp only [← List.get_eq_getElem]
      exact hi
    have hflt : ms.length < (ms ++ [(fid, LogKind.FunctionEntry)]).length := by
      simp
    have hfid1 : ((ms ++ [(fid, LogKind.FunctionEntry)]).get
        ⟨ms.length, hflt⟩).1 = (st.nextID + ms.length) % U30 :=
      hseq ms.length hflt
    have hfidel : (ms ++ [(fid, LogKind.FunctionEntry)]).get
        ⟨ms.length, hflt⟩ = (fid, LogKind.FunctionEntry) := by
      simp only [List.get_eq_getElem]
      exact List.getElem_concat_length ms _ _ rfl _
    rw [hpel] at hp1
    rw [hfidel] at hfid1
    have hi1 : (i : Nat) < ms.length := i.isLt
    have hm1 : (st.nextID + i) % U30 = st.nextID + i :=
      Nat.mod_eq_of_lt (by omega)
    have hm2 : (st.nextID + ms.length) % U30 = st.nextID + ms.length :=
      Nat.mod_eq_of_lt (by omega)
    simp only [hm1] at hp1
    simp only [hm2] at hfid1
    omega

/-- Witness for mint_ordering: the run over the two example functions (6
mints) and the single-function case at the initial state. -/
theorem mint_ordering_witness :
    ((walkFunctions ⟨[], [], false⟩ initState [exFnA, exFnB]).2.mintTrace.map
        Prod.fst =
      List.range
        (walkFunctions ⟨[], [], false⟩ initState
          [exFnA, exFnB]).2.mintTrace.length) ∧
    (∃ ms fid,
      MintsFrom initState
        (walkFunction ⟨[], [], false⟩ initState exFnA).2
        (ms ++ [(fid, .FunctionEntry)]) ∧
      (walkFunction ⟨[], [], false⟩ initState exFnA).2.functionNameIdPairs =
        initState.functionNameIdPairs ++ [(exFnA.name, fid)]) :=
  ⟨(mint_ordering.1 ⟨[], [], false⟩ [exFnA, exFnB] (by decide)).1,
   (mint_ordering.2.1 ⟨[], [], false⟩ initState exFnA (by decide)
      (by decide)).elim
     (fun ms hms => hms.elim
       (fun fid h => ⟨ms, fid, h.1, h.2.1⟩))⟩

end LogExec
